import Mathlib

/-!
A shallow embedding of the comment subsystem of the micro-blogging
backend: the `createComment` handler
(`backend/src/functions/comments/createComment.js`) and the
`getComments` handler (`backend/src/functions/comments/getComments.js`),
together with the DynamoDB query contract these handlers rely on, as
fixed by the repository's own test suite (`getComments.test.js`).

JavaScript builtins (`trim`, `length`, `parseInt`, `JSON.stringify` /
`JSON.parse`, `encodeURIComponent` / `decodeURIComponent`) are modelled
by concrete executable functions below; each model is documented at its
definition.
-/

namespace MicroBlog

/-- A stored comment record: the `Item` put into `CommentsTable` by
`createComment.js` lines 110-117. -/
structure Comment where
  id : String
  postId : String
  userId : String
  username : String
  text : String
  createdAt : String
deriving DecidableEq, Repr

/-- JavaScript falsiness of an optional string field: `!x` is true for
`undefined`, `null` and `""`. -/
def jsFalsy : Option String → Bool
  | none => true
  | some s => s == ""

/-- The whitespace class of JavaScript's `trim` and of `parseInt`'s
leading-whitespace skip: ASCII whitespace (including vertical tab and
form feed, which the repository's property test exercises) plus
no-break space and the BOM. -/
def isJsWs (c : Char) : Bool :=
  c == ' ' || c == '\t' || c == '\n' || c == '\r' ||
    c == Char.ofNat 11 || c == Char.ofNat 12 ||
    c == Char.ofNat 0xa0 || c == Char.ofNat 0xfeff

/-- Model of JavaScript `text.trim()`: drop leading and trailing
whitespace. -/
def jsTrim (s : String) : String :=
  ⟨((s.data.dropWhile isJsWs).reverse.dropWhile isJsWs).reverse⟩

/-- Model of JavaScript `text.length`: UTF-16 code units, so codepoints
beyond the basic multilingual plane count twice. -/
def jsLength (s : String) : Nat :=
  (s.data.map (fun c => if c.toNat < 0x10000 then 1 else 2)).sum

/-- Value of a hexadecimal digit character, `none` otherwise. -/
def hexVal (c : Char) : Option Nat :=
  if '0' ≤ c ∧ c ≤ '9' then some (c.toNat - 48)
  else if 'a' ≤ c ∧ c ≤ 'f' then some (c.toNat - 87)
  else if 'A' ≤ c ∧ c ≤ 'F' then some (c.toNat - 55)
  else none

def isDecDigit (c : Char) : Bool := '0' ≤ c && c ≤ '9'

def isHexDigit (c : Char) : Bool := (hexVal c).isSome

/-- Numeric value of a run of decimal digit characters. -/
def natOfDigits (l : List Char) : Nat :=
  l.foldl (fun a c => 10 * a + (c.toNat - 48)) 0

/-- Numeric value of a run of hexadecimal digit characters. -/
def natOfHexDigits (l : List Char) : Nat :=
  l.foldl (fun a c => 16 * a + ((hexVal c).getD 0)) 0

/-- Model of JavaScript `parseInt(s)` with the radix unspecified: skip
leading whitespace, read an optional sign, `0x`/`0X` switches to
hexadecimal, parse the longest digit run, `none` for `NaN`. -/
def parseIntJs (s : String) : Option Int :=
  let l := s.data.dropWhile isJsWs
  let sg : Int := match l with
    | '-' :: _ => -1
    | _ => 1
  let l1 := match l with
    | '-' :: r => r
    | '+' :: r => r
    | _ => l
  match l1 with
  | '0' :: x :: r =>
    if x == 'x' || x == 'X' then
      let ds := r.takeWhile isHexDigit
      if ds.isEmpty then none else some (sg * (natOfHexDigits ds : Int))
    else
      some (sg * (natOfDigits (('0' :: x :: r).takeWhile isDecDigit) : Int))
  | _ =>
    let ds := l1.takeWhile isDecDigit
    if ds.isEmpty then none else some (sg * (natOfDigits ds : Int))

/-- `getComments.js` line 40: `const limit = parseInt(queryParams.limit) || 50`.
`NaN`, `0` and `-0` are falsy, every other number (negative ones
included) is kept. -/
def effLimit : Option String → Int
  | none => 50
  | some s =>
    match parseIntJs s with
    | none => 50
    | some v => if v = 0 then 50 else v

/-- The characters `encodeURIComponent` leaves unescaped:
alphanumerics and `- _ . ! ~ * ' ( )`. -/
def isUnreservedChar (c : Char) : Bool :=
  c.isAlphanum || c == '-' || c == '_' || c == '.' || c == '!' ||
    c == '~' || c == '*' || c == Char.ofNat 39 || c == '(' || c == ')'

/-- Upper-case hexadecimal digit character, as `encodeURIComponent`
produces. -/
def hexDigitChar (d : Nat) : Char :=
  if d < 10 then Char.ofNat (48 + d) else Char.ofNat (55 + d)

/-- The `%XX` escape of one byte. -/
def escByte (n : Nat) : List Char :=
  ['%', hexDigitChar (n / 16), hexDigitChar (n % 16)]

/-- Model of `encodeURIComponent` on ASCII text (the cursor strings the
reader produces are ASCII JSON; each escaped character is one byte). -/
def percentEncode (s : String) : String :=
  ⟨(s.data.map (fun c => if isUnreservedChar c then [c] else escByte c.toNat)).flatten⟩

/-- Model of `decodeURIComponent` on the same fragment: undo `%XX`
escapes, `none` where the builtin would throw `URIError`. -/
def percentDecodeList : List Char → Option (List Char)
  | [] => some []
  | c :: rest =>
    if c = '%' then
      match rest with
      | h :: lo :: rest2 =>
        match hexVal h, hexVal lo with
        | some hv, some lv => (percentDecodeList rest2).map (Char.ofNat (16 * hv + lv) :: ·)
        | _, _ => none
      | _ => none
    else (percentDecodeList rest).map (c :: ·)

/-- The pagination key returned by the `postId` GSI of `CommentsTable`:
table primary key `id` plus the index keys `postId` and `createdAt`
(the shape the repository's tests use for `LastEvaluatedKey`). -/
structure LastKey where
  id : String
  postId : String
  createdAt : String
deriving DecidableEq, Repr

def keyOf (c : Comment) : LastKey := ⟨c.id, c.postId, c.createdAt⟩

def tagId : String := "\x7b\"id\":\""

def tagPost : String := "\",\"postId\":\""

def tagCreated : String := "\",\"createdAt\":\""

def tagEnd : String := "\"\x7d"

/-- `JSON.stringify` of a `LastKey` (field strings that would need JSON
escaping are outside the `plainKey` fragment modelled here). -/
def jsonOfKey (k : LastKey) : String :=
  tagId ++ k.id ++ tagPost ++ k.postId ++ tagCreated ++ k.createdAt ++ tagEnd

/-- Consume an expected literal character sequence. -/
def expectChars : List Char → List Char → Option (List Char)
  | [], l => some l
  | _ :: _, [] => none
  | p :: ps, c :: cs => if c = p then expectChars ps cs else none

/-- Split at the first `"` without consuming it. -/
def scanField : List Char → Option (List Char × List Char)
  | [] => none
  | c :: rest =>
    if c = '"' then some ([], c :: rest)
    else (scanField rest).map (fun pr => (c :: pr.1, pr.2))

/-- `JSON.parse` specialised to the serialised `LastKey` shape; any
other text yields `none`. -/
def parseKeyChars (l : List Char) : Option LastKey := do
  let r0 ← expectChars tagId.data l
  let (f1, r1) ← scanField r0
  let r2 ← expectChars tagPost.data r1
  let (f2, r3) ← scanField r2
  let r4 ← expectChars tagCreated.data r3
  let (f3, r5) ← scanField r4
  let r6 ← expectChars tagEnd.data r5
  if r6.isEmpty then some ⟨⟨f1⟩, ⟨f2⟩, ⟨f3⟩⟩ else none

/-- `encodeURIComponent(JSON.stringify(lastEvaluatedKey))`
(`getComments.js` line 84). -/
def encodeLastKey (k : LastKey) : String := percentEncode (jsonOfKey k)

/-- `JSON.parse(decodeURIComponent(lastKey))` under the handler's
`try`/`catch` (`getComments.js` lines 44-54): every failure collapses
to `none`, the handler never propagates it. -/
def decodeLastKey (s : String) : Option LastKey :=
  (percentDecodeList s.data).bind parseKeyChars

/-- Field strings on which the JSON/URI builtins are modelled exactly:
ASCII with no quote and no backslash. The keys the system produces
(uuid `id`s, uuid `postId`s, ISO-8601 `createdAt`s) are in this
fragment. -/
def plainStr (s : String) : Bool :=
  s.data.all (fun c => c.toNat < 128 && c != '"' && c != '\\')

def plainKey (k : LastKey) : Bool :=
  plainStr k.id && plainStr k.postId && plainStr k.createdAt

/-- One page of the DynamoDB `Query` on the `postId` GSI. -/
structure QueryOut where
  items : List Comment
  lastEvaluatedKey : Option LastKey
deriving DecidableEq, Repr

/-- Resume a partition scan strictly after the item carrying the
`ExclusiveStartKey`. -/
def resumeAfter (part : List Comment) : Option LastKey → List Comment
  | none => part
  | some k => (part.dropWhile (fun c => decide (keyOf c ≠ k))).tail

/-- The store contract the handlers rely on, as the repository's tests
fix it (`getComments.test.js`): the table state is the list of comments
in index scan order; a query filters one `postId` partition, resumes
strictly after the `ExclusiveStartKey` item, returns up to `Limit`
items, and reports a `LastEvaluatedKey` exactly when more items remain
beyond the returned page. -/
def ddbQuery (store : List Comment) (p : String) (limit : Int)
    (esk : Option LastKey) : QueryOut :=
  let part := store.filter (fun c => c.postId == p)
  let rest := resumeAfter part esk
  let items := rest.take limit.toNat
  { items := items
    lastEvaluatedKey :=
      if limit.toNat < rest.length then items.getLast?.map keyOf else none }

/-- The `getComments` request surface: `event.pathParameters?.postId`
and the `limit` / `lastKey` query string parameters. -/
structure GetEvent where
  pathPostId : Option String
  limitParam : Option String
  lastKeyParam : Option String
deriving DecidableEq, Repr

/-- Deployment state the handler reads: whether `COMMENTS_TABLE_NAME`
is set and whether the store call succeeds. -/
structure GetEnv where
  tableSet : Bool
  storageOk : Bool
deriving DecidableEq, Repr

inductive GetResult where
  | validationError (message : String)
  | ok (comments : List Comment) (lastKey : Option String)
  | internalError
deriving DecidableEq, Repr

/-- HTTP status code of a `getComments` response
(`getComments.js` lines 25, 93, 108). -/
def GetResult.status : GetResult → Nat
  | .validationError _ => 400
  | .ok _ _ => 200
  | .internalError => 500

/-- The handler of `getComments.js` lines 13-121: missing table name
throws (500); falsy `postId` is a 400 `ValidationError`; the limit
falls back through `|| 50`; the cursor decode failure collapses to no
cursor; the page and the re-encoded `LastEvaluatedKey` are returned. -/
def getComments (env : GetEnv) (store : List Comment) (ev : GetEvent) : GetResult :=
  if !env.tableSet then .internalError
  else if jsFalsy ev.pathPostId then .validationError "Post ID is required"
  else
    let p := ev.pathPostId.getD ""
    let limit := effLimit ev.limitParam
    let esk : Option LastKey := match ev.lastKeyParam with
      | none => none
      | some s => decodeLastKey s
    if !env.storageOk then .internalError
    else
      let r := ddbQuery store p limit esk
      .ok r.items (r.lastEvaluatedKey.map encodeLastKey)

/-- Caller identity attached to the event by the `withAuth`
middleware. -/
structure AuthUser where
  id : String
  username : String
deriving DecidableEq, Repr

/-- Outcome of `JSON.parse(event.body)` and the destructuring
`const { postId, text } = ...`; `payloadUserId` records a `userId`
field a caller may have put in the payload. -/
inductive JsBody where
  | malformed
  | fields (postId : Option String) (text : Option String) (payloadUserId : Option String)
deriving DecidableEq, Repr

structure CreateEvent where
  body : Option JsBody
  user : AuthUser
deriving DecidableEq, Repr

/-- Deployment state plus the two server-generated values: the fresh
`uuidv4()` and `new Date().toISOString()`. -/
structure CreateEnv where
  tableSet : Bool
  storageOk : Bool
  freshId : String
  now : String
deriving DecidableEq, Repr

inductive CreateResult where
  | validationError (message : String)
  | created (comment : Comment)
  | internalError
deriving DecidableEq, Repr

/-- HTTP status code of a `createComment` response
(`createComment.js` lines 20, 129, 141). -/
def CreateResult.status : CreateResult → Nat
  | .validationError _ => 400
  | .created _ => 201
  | .internalError => 500

/-- The handler of `createComment.js` lines 15-154, returning the
response together with the table contents after the call. -/
def createComment (env : CreateEnv) (store : List Comment) (ev : CreateEvent) :
    CreateResult × List Comment :=
  match ev.body with
  | none => (.validationError "Missing request body", store)
  | some .malformed => (.internalError, store)
  | some (.fields postId text _) =>
    if jsFalsy postId then (.validationError "Post ID is required", store)
    else if jsFalsy text then (.validationError "Comment text is required", store)
    else
      let t := text.getD ""
      if jsTrim t == "" then
        (.validationError "Comment text cannot be empty or contain only whitespace", store)
      else if 280 < jsLength t then
        (.validationError "Comment text cannot exceed 280 characters", store)
      else if !env.tableSet then (.internalError, store)
      else
        let c : Comment :=
          { id := env.freshId, postId := postId.getD "", userId := ev.user.id
            username := ev.user.username, text := jsTrim t, createdAt := env.now }
        if !env.storageOk then (.internalError, store)
        else (.created c, store ++ [c])

/-- The client pagination loop (the spec's cursor walk, also the loop of
the repository's integration test): call `getComments`, accumulate the
page, follow `lastKey` until it is absent. `fuel` bounds the number of
calls. -/
def followPages (env : GetEnv) (store : List Comment) (p : String)
    (limitParam : Option String) : Nat → Option String → List Comment
  | 0, _ => []
  | fuel + 1, cursor =>
    match getComments env store ⟨some p, limitParam, cursor⟩ with
    | .ok items none => items
    | .ok items (some nxt) => items ++ followPages env store p limitParam fuel (some nxt)
    | _ => []

/-- The cursor string `cursor` resumes the walk over partition `part`
at index `i`: no cursor means the start, and a cursor decoding to the
key of item `j` means index `j + 1`. -/
def cursorAt (part : List Comment) (cursor : Option String) (i : Nat) : Prop :=
  match cursor with
  | none => i = 0
  | some s =>
    ∃ j, i = j + 1 ∧ ∃ h : j < part.length, decodeLastKey s = some (keyOf (part.get ⟨j, h⟩))

/-- Lexicographic order on character lists (by codepoint). -/
def charListLt : List Char → List Char → Bool
  | [], [] => false
  | [], _ :: _ => true
  | _ :: _, [] => false
  | c :: cs, d :: ds =>
    if c.toNat < d.toNat then true
    else if d.toNat < c.toNat then false
    else charListLt cs ds

/-- Lexicographic strict order on strings. -/
def strLt (s t : String) : Bool := charListLt s.data t.data

/-- Lexicographic order on strings, reflexive. -/
def strLE (s t : String) : Bool := strLt s t || s == t

/-- The comparison the specification's order-stability property uses:
ascending by the pair `(createdAt, id)`. -/
def specKeyLE (c d : Comment) : Bool :=
  strLt c.createdAt d.createdAt || (c.createdAt == d.createdAt && strLE c.id d.id)

/-- Stable insertion into a list ascending under `specKeyLE`. -/
def specInsert (c : Comment) : List Comment → List Comment
  | [] => [c]
  | d :: l => if specKeyLE c d then c :: d :: l else d :: specInsert c l

/-- Modelled from the spec's §8 order-stability wording: the full
comment list sorted ascending by `(createdAt, id)` (a spec-side
definition, used only to compare the handler's output against it). -/
def specSorted (l : List Comment) : List Comment :=
  l.foldr specInsert []

/-! ## Cursor codec lemmas -/

theorem expectChars_append (p r : List Char) : expectChars p (p ++ r) = some r := by
  induction p with
  | nil => rfl
  | cons c cs ih => simp [expectChars, ih]

theorem scanField_append (f r : List Char) (hf : ∀ c ∈ f, c ≠ '"') :
    scanField (f ++ '"' :: r) = some (f, '"' :: r) := by
  induction f with
  | nil => simp [scanField]
  | cons c cs ih =>
    have hc : c ≠ '"' := hf c (by simp)
    simp [scanField, hc, ih (fun d hd => hf d (by simp [hd]))]

theorem scan_at_tag (f R : List Char) (t : String) (h : ∀ c ∈ f, c ≠ '"')
    (ht : t.data = '"' :: t.data.tail) :
    scanField (f ++ (t.data ++ R)) = some (f, t.data ++ R) := by
  rw [ht, List.cons_append, scanField_append f _ h, ← List.cons_append, ← ht]

theorem hexVal_hexDigitChar {d : Nat} (hd : d < 16) :
    hexVal (hexDigitChar d) = some d := by
  interval_cases d <;> decide

theorem percentDecodeList_cons_ne (c : Char) (l : List Char) (h : c ≠ '%') :
    percentDecodeList (c :: l) = (percentDecodeList l).map (c :: ·) := by
  conv_lhs => rw [percentDecodeList.eq_def]
  simp [h]

theorem percentDecodeList_esc (h lo : Char) (hv lv : Nat) (l : List Char)
    (hh : hexVal h = some hv) (hl : hexVal lo = some lv) :
    percentDecodeList ('%' :: h :: lo :: l) =
      (percentDecodeList l).map (Char.ofNat (16 * hv + lv) :: ·) := by
  conv_lhs => rw [percentDecodeList.eq_def]
  simp [hh, hl]

theorem percentDecode_percentEncode (l : List Char) (h : ∀ c ∈ l, c.toNat < 128) :
    percentDecodeList ((l.map (fun c =>
      if isUnreservedChar c then [c] else escByte c.toNat)).flatten) = some l := by
  induction l with
  | nil => simp [percentDecodeList]
  | cons c cs ih =>
    have hc : c.toNat < 128 := h c (by simp)
    have ihs := ih (fun d hd => h d (by simp [hd]))
    by_cases hu : isUnreservedChar c = true
    · have hne : c ≠ '%' := by
        intro e
        subst e
        exact absurd hu (by decide)
      simp [hu, percentDecodeList_cons_ne c _ hne, ihs]
    · have h16 : c.toNat / 16 < 16 := by omega
      have h16b : c.toNat % 16 < 16 := by omega
      have hdm : 16 * (c.toNat / 16) + c.toNat % 16 = c.toNat := Nat.div_add_mod _ 16
      have hstep : (((c :: cs).map (fun c =>
            if isUnreservedChar c then [c] else escByte c.toNat)).flatten)
          = '%' :: hexDigitChar (c.toNat / 16) :: hexDigitChar (c.toNat % 16) ::
            ((cs.map (fun c =>
              if isUnreservedChar c then [c] else escByte c.toNat)).flatten) := by
        simp [hu, escByte]
      rw [hstep,
        percentDecodeList_esc _ _ _ _ _ (hexVal_hexDigitChar h16) (hexVal_hexDigitChar h16b),
        hdm, Char.ofNat_toNat, ihs]
      rfl

theorem plainStr_ascii {s : String} (h : plainStr s = true) :
    ∀ c ∈ s.data, c.toNat < 128 := by
  intro c hc
  have hp := (List.all_eq_true.mp h) c hc
  simp only [Bool.and_eq_true, bne_iff_ne, decide_eq_true_eq] at hp
  exact hp.1.1

theorem plainStr_no_quote {s : String} (h : plainStr s = true) :
    ∀ c ∈ s.data, c ≠ '"' := by
  intro c hc
  have hp := (List.all_eq_true.mp h) c hc
  simp only [Bool.and_eq_true, bne_iff_ne, decide_eq_true_eq] at hp
  exact hp.1.2

theorem parseKeyChars_jsonOfKey (k : LastKey) (hk : plainKey k = true) :
    parseKeyChars (jsonOfKey k).data = some k := by
  have hks : plainStr k.id = true ∧ plainStr k.postId = true ∧ plainStr k.createdAt = true := by
    simpa [plainKey, Bool.and_eq_true, and_assoc] using hk
  obtain ⟨h1, h2, h3⟩ := hks
  have tp : tagPost.data = '"' :: tagPost.data.tail := rfl
  have tc : tagCreated.data = '"' :: tagCreated.data.tail := rfl
  have te : tagEnd.data = '"' :: tagEnd.data.tail := rfl
  have hdata : (jsonOfKey k).data =
      tagId.data ++ (k.id.data ++ (tagPost.data ++ (k.postId.data ++
        (tagCreated.data ++ (k.createdAt.data ++ (tagEnd.data ++ [])))))) := by
    simp [jsonOfKey, String.data_append]
  rw [hdata]
  unfold parseKeyChars
  simp only [Option.bind_eq_bind]
  rw [expectChars_append, Option.some_bind,
    scan_at_tag _ _ _ (plainStr_no_quote h1) tp, Option.some_bind]
  rw [expectChars_append, Option.some_bind,
    scan_at_tag _ _ _ (plainStr_no_quote h2) tc, Option.some_bind]
  rw [expectChars_append, Option.some_bind,
    scan_at_tag _ _ _ (plainStr_no_quote h3) te, Option.some_bind]
  rw [expectChars_append, Option.some_bind]
  rfl

theorem percentDecode_jsonOfKey (k : LastKey) (hk : plainKey k = true) :
    percentDecodeList (percentEncode (jsonOfKey k)).data = some ((jsonOfKey k).data) := by
  have hks : plainStr k.id = true ∧ plainStr k.postId = true ∧ plainStr k.createdAt = true := by
    simpa [plainKey, Bool.and_eq_true, and_assoc] using hk
  obtain ⟨h1, h2, h3⟩ := hks
  have hascii : ∀ c ∈ (jsonOfKey k).data, c.toNat < 128 := by
    have htags : ∀ c ∈ tagId.data ++ tagPost.data ++ tagCreated.data ++ tagEnd.data,
        c.toNat < 128 := by decide
    intro c hc
    rw [show (jsonOfKey k).data =
        tagId.data ++ (k.id.data ++ (tagPost.data ++ (k.postId.data ++
          (tagCreated.data ++ (k.createdAt.data ++ tagEnd.data))))) by
      simp [jsonOfKey, String.data_append]] at hc
    simp only [List.mem_append] at hc
    rcases hc with hc | hc | hc | hc | hc | hc | hc
    · exact htags c (by simp [hc])
    · exact plainStr_ascii h1 c hc
    · exact htags c (by simp [hc])
    · exact plainStr_ascii h2 c hc
    · exact htags c (by simp [hc])
    · exact plainStr_ascii h3 c hc
    · exact htags c (by simp [hc])
  exact percentDecode_percentEncode _ hascii

/-- One encode/decode cycle on a pagination key round-trips exactly. -/
theorem decodeLastKey_encodeLastKey (k : LastKey) (hk : plainKey k = true) :
    decodeLastKey (encodeLastKey k) = some k := by
  unfold decodeLastKey encodeLastKey
  rw [percentDecode_jsonOfKey k hk, Option.some_bind]
  exact parseKeyChars_jsonOfKey k hk

/-! ## Pagination lemmas -/

theorem dropWhile_ne_getElem (l : List Comment) (i : Nat) (h : i < l.length)
    (hnd : (l.map keyOf).Nodup) :
    l.dropWhile (fun c => decide (keyOf c ≠ keyOf (l.get ⟨i, h⟩))) = l.drop i := by
  induction l generalizing i with
  | nil => simp at h
  | cons x xs ih =>
    rw [List.map_cons] at hnd
    rcases List.nodup_cons.mp hnd with ⟨hx, hnd2⟩
    cases i with
    | zero => simp [List.dropWhile_cons]
    | succ n =>
      have hn : n < xs.length := by simpa using h
      have hxk : ¬ keyOf x = keyOf xs[n] := by
        intro e
        exact hx (e ▸ List.mem_map_of_mem keyOf (List.getElem_mem hn))
      have ihn := ih n hn hnd2
      simp only [List.get_eq_getElem] at ihn
      have hget2 : (x :: xs).get ⟨n + 1, h⟩ = xs[n] := by
        simp [List.get_eq_getElem, List.getElem_cons_succ]
      rw [hget2, List.dropWhile_cons, if_pos (by simpa using hxk), List.drop_succ_cons]
      exact ihn

theorem resumeAfter_getElem (part : List Comment) (j : Nat) (h : j < part.length)
    (hnd : (part.map keyOf).Nodup) :
    resumeAfter part (some (keyOf (part.get ⟨j, h⟩))) = part.drop (j + 1) := by
  have hred : resumeAfter part (some (keyOf (part.get ⟨j, h⟩))) =
      (part.dropWhile (fun c => decide (keyOf c ≠ keyOf (part.get ⟨j, h⟩)))).tail := rfl
  rw [hred, dropWhile_ne_getElem part j h hnd, List.tail_drop]

/-- On a live table, present `postId` and working storage, `getComments`
is the store page of the decoded cursor, with the `LastEvaluatedKey`
re-encoded. -/
theorem getComments_ok (env : GetEnv) (store : List Comment) (p : String)
    (lim : Option String) (cursor : Option String)
    (h1 : env.tableSet = true) (h2 : env.storageOk = true) (hp : ¬ p = "") :
    getComments env store ⟨some p, lim, cursor⟩ =
      .ok (ddbQuery store p (effLimit lim) (cursor.bind decodeLastKey)).items
        ((ddbQuery store p (effLimit lim) (cursor.bind decodeLastKey)).lastEvaluatedKey.map
          encodeLastKey) := by
  cases cursor <;> simp [getComments, h1, h2, jsFalsy, hp]

/-- Core induction for the cursor walk: from a cursor resuming at
index `i`, the walk returns exactly the rest of the partition. -/
theorem followPages_eq_drop (env : GetEnv) (store : List Comment) (p : String)
    (lim : Option String) (L : Int)
    (h1 : env.tableSet = true) (h2 : env.storageOk = true) (hp : ¬ p = "")
    (hL : effLimit lim = L) (hL1 : 1 ≤ L)
    (hnd : ((store.filter (fun c => c.postId == p)).map keyOf).Nodup)
    (hplain : ∀ c ∈ store, plainKey (keyOf c) = true) :
    ∀ (fuel i : Nat) (cursor : Option String),
      (store.filter (fun c => c.postId == p)).length - i + 1 ≤ fuel →
      cursorAt (store.filter (fun c => c.postId == p)) cursor i →
      followPages env store p lim fuel cursor =
        (store.filter (fun c => c.postId == p)).drop i := by
  intro fuel
  induction fuel with
  | zero =>
    intro i cursor hfuel hcur
    omega
  | succ fuel ih =>
    intro i cursor hfuel hcur
    set part := store.filter (fun c => c.postId == p) with hpartdef
    have hres : resumeAfter part (cursor.bind decodeLastKey) = part.drop i := by
      cases cursor with
      | none =>
        have h0 : i = 0 := hcur
        subst h0
        simp [resumeAfter]
      | some s =>
        obtain ⟨j, rfl, hj, hdec⟩ := hcur
        rw [Option.some_bind, hdec]
        exact resumeAfter_getElem part j hj hnd
    have hitems : (ddbQuery store p L (cursor.bind decodeLastKey)).items
        = (part.drop i).take L.toNat := by
      simp only [ddbQuery, ← hpartdef, hres]
    have hlek : (ddbQuery store p L (cursor.bind decodeLastKey)).lastEvaluatedKey
        = (if L.toNat < (part.drop i).length
           then ((part.drop i).take L.toNat).getLast?.map keyOf else none) := by
      simp only [ddbQuery, ← hpartdef, hres]
    have hstep : followPages env store p lim (fuel + 1) cursor =
        match getComments env store ⟨some p, lim, cursor⟩ with
        | .ok items none => items
        | .ok items (some nxt) => items ++ followPages env store p lim fuel (some nxt)
        | _ => [] := rfl
    rw [hstep, getComments_ok env store p lim cursor h1 h2 hp, hL, hitems, hlek]
    by_cases hc : L.toNat < (part.drop i).length
    · rw [if_pos hc]
      rw [List.length_drop] at hc
      have hn1 : 1 ≤ L.toNat := by omega
      have hlen : ((part.drop i).take L.toNat).length = L.toNat := by
        simp only [List.length_take, List.length_drop]
        omega
      have hlt : L.toNat - 1 < ((part.drop i).take L.toNat).length := by omega
      have hidx : i + (L.toNat - 1) < part.length := by omega
      have hgetn : ((part.drop i).take L.toNat).get ⟨L.toNat - 1, hlt⟩ =
          part.get ⟨i + (L.toNat - 1), hidx⟩ := by
        simp [List.get_eq_getElem, List.getElem_take, List.getElem_drop]
      have hgl : ((part.drop i).take L.toNat).getLast? =
          some (part.get ⟨i + (L.toNat - 1), hidx⟩) := by
        rw [List.getLast?_eq_getElem?, hlen, ← hgetn]
        exact List.getElem?_eq_getElem (by omega)
      rw [hgl, Option.map_some', Option.map_some']
      have hmem : part.get ⟨i + (L.toNat - 1), hidx⟩ ∈ store :=
        (List.mem_filter.mp (List.get_mem part _ hidx)).1
      have hcur2 : cursorAt part
          (some (encodeLastKey (keyOf (part.get ⟨i + (L.toNat - 1), hidx⟩)))) (i + L.toNat) := by
        refine ⟨i + (L.toNat - 1), by omega, hidx, ?_⟩
        exact decodeLastKey_encodeLastKey _ (hplain _ hmem)
      have hfuel2 : part.length - (i + L.toNat) + 1 ≤ fuel := by omega
      have ihs := ih (i + L.toNat) _ hfuel2 hcur2
      show (part.drop i).take L.toNat ++
          followPages env store p lim fuel
            (some (encodeLastKey (keyOf (part.get ⟨i + (L.toNat - 1), hidx⟩)))) = part.drop i
      rw [ihs, ← List.drop_drop, List.take_append_drop]
    · rw [if_neg hc]
      show (part.drop i).take L.toNat = part.drop i
      exact List.take_of_length_le (Nat.le_of_not_lt hc)

/-! ## Claim theorems -/

/-- C1 (amended): for every post partition and page size `L ≥ 1`, with
unique comment ids and plain key fields, repeatedly calling
`getComments` and following returned cursors until `lastKey` is absent
yields exactly the partition's comments — no omission, no duplicate —
and the concatenation of the pages equals the partition in the store's
scan order; it is non-decreasing in `createdAt` whenever the scan order
is, but equal-`createdAt` ties keep the scan order instead of being
sorted by `id`. -/
theorem C1_cursor_walk_amended (env : GetEnv) (store : List Comment) (p : String)
    (lim : Option String) (L : Int) (fuel : Nat)
    (h1 : env.tableSet = true) (h2 : env.storageOk = true) (hp : ¬ p = "")
    (hL : effLimit lim = L) (hL1 : 1 ≤ L)
    (hids : (store.map Comment.id).Nodup)
    (hplain : ∀ c ∈ store, plainKey (keyOf c) = true)
    (hfuel : (store.filter (fun c => c.postId == p)).length < fuel) :
    followPages env store p lim fuel none = store.filter (fun c => c.postId == p) ∧
    ((followPages env store p lim fuel none).map Comment.id).Nodup ∧
    (∀ c, c ∈ followPages env store p lim fuel none ↔ c ∈ store ∧ c.postId = p) ∧
    (List.Chain' (fun c d => strLE c.createdAt d.createdAt = true)
        (store.filter (fun c => c.postId == p)) →
      List.Chain' (fun c d => strLE c.createdAt d.createdAt = true)
        (followPages env store p lim fuel none)) := by
  have hidsub : ((store.filter (fun c => c.postId == p)).map Comment.id).Nodup :=
    hids.sublist ((List.filter_sublist store).map Comment.id)
  have hpid : List.Pairwise (fun a b : Comment => a.id ≠ b.id)
      (store.filter (fun c => c.postId == p)) := (List.pairwise_map).mp hidsub
  have hnd : ((store.filter (fun c => c.postId == p)).map keyOf).Nodup :=
    (List.pairwise_map).mpr (hpid.imp (fun hab e => hab (congrArg LastKey.id e)))
  have hmain := followPages_eq_drop env store p lim L h1 h2 hp hL hL1 hnd hplain
    fuel 0 none (by omega) rfl
  rw [List.drop_zero] at hmain
  refine ⟨hmain, ?_, ?_, ?_⟩
  · rw [hmain]
    exact hidsub
  · intro c
    rw [hmain, List.mem_filter]
    simp [beq_iff_eq]
  · intro hch
    rw [hmain]
    exact hch

/-- C1 witness: a three-comment store, two of them in partition `p1`,
walked with page size 1. -/
theorem C1_cursor_walk_amended_witness :
    followPages ⟨true, true⟩
        [⟨"a", "p1", "u", "n", "x", "1"⟩, ⟨"b", "p1", "u", "n", "x", "2"⟩,
          ⟨"c", "p2", "u", "n", "x", "3"⟩] "p1" (some "1") 3 none =
      List.filter (fun c => c.postId == "p1")
        [⟨"a", "p1", "u", "n", "x", "1"⟩, ⟨"b", "p1", "u", "n", "x", "2"⟩,
          ⟨"c", "p2", "u", "n", "x", "3"⟩] :=
  (C1_cursor_walk_amended ⟨true, true⟩ _ "p1" (some "1") 1 3 rfl rfl (by decide)
    (by decide) (by decide) (by decide) (by decide) (by decide)).1

/-- C1 counterexample: two comments with equal `createdAt` whose ids are
in the opposite order of the scan order. The cursor walk returns the
scan order, not the list sorted ascending by `(createdAt, id)`, so the
claim's order-stability clause fails on the code (no `id` tiebreaker is
added to the store query). -/
theorem C1_counterexample :
    (followPages ⟨true, true⟩
        [⟨"b", "p", "u", "n", "x", "1"⟩, ⟨"a", "p", "u", "n", "x", "1"⟩]
        "p" (some "1") 3 none ≠
      specSorted (List.filter (fun c => c.postId == "p")
        [⟨"b", "p", "u", "n", "x", "1"⟩, ⟨"a", "p", "u", "n", "x", "1"⟩])) ∧
    followPages ⟨true, true⟩
        [⟨"b", "p", "u", "n", "x", "1"⟩, ⟨"a", "p", "u", "n", "x", "1"⟩]
        "p" (some "1") 3 none =
      [⟨"b", "p", "u", "n", "x", "1"⟩, ⟨"a", "p", "u", "n", "x", "1"⟩] ∧
    specSorted (List.filter (fun c => c.postId == "p")
        [⟨"b", "p", "u", "n", "x", "1"⟩, ⟨"a", "p", "u", "n", "x", "1"⟩]) =
      [⟨"a", "p", "u", "n", "x", "1"⟩, ⟨"b", "p", "u", "n", "x", "1"⟩] := by
  decide

/-- C2: when the number of comments in the partition equals the
requested limit exactly, `getComments` returns all of them in that
single page and the returned `lastKey` is absent, so the client never
fetches an extra empty page. -/
theorem C2_exact_page_boundary (env : GetEnv) (store : List Comment) (p : String)
    (lim : Option String) (L : Int)
    (h1 : env.tableSet = true) (h2 : env.storageOk = true) (hp : ¬ p = "")
    (hL : effLimit lim = L)
    (hlen : (store.filter (fun c => c.postId == p)).length = L.toNat) :
    getComments env store ⟨some p, lim, none⟩ =
      .ok (store.filter (fun c => c.postId == p)) none := by
  rw [getComments_ok env store p lim none h1 h2 hp, hL]
  have hq : ddbQuery store p L (Option.bind none decodeLastKey) =
      ⟨store.filter (fun c => c.postId == p), none⟩ := by
    simp [ddbQuery, resumeAfter, List.take_of_length_le hlen.le, hlen]
  rw [hq]
  rfl

/-- C2 witness: exactly five comments for the post and `limit=5`; all
five come back and `lastKey` is `null`. -/
theorem C2_exact_page_boundary_witness :
    getComments ⟨true, true⟩
        [⟨"c1", "p2", "u", "n", "x", "1"⟩, ⟨"c2", "p2", "u", "n", "x", "2"⟩,
          ⟨"c3", "p2", "u", "n", "x", "3"⟩, ⟨"c4", "p2", "u", "n", "x", "4"⟩,
          ⟨"c5", "p2", "u", "n", "x", "5"⟩]
        ⟨some "p2", some "5", none⟩ =
      .ok [⟨"c1", "p2", "u", "n", "x", "1"⟩, ⟨"c2", "p2", "u", "n", "x", "2"⟩,
          ⟨"c3", "p2", "u", "n", "x", "3"⟩, ⟨"c4", "p2", "u", "n", "x", "4"⟩,
          ⟨"c5", "p2", "u", "n", "x", "5"⟩] none := by
  have h := C2_exact_page_boundary ⟨true, true⟩
    [⟨"c1", "p2", "u", "n", "x", "1"⟩, ⟨"c2", "p2", "u", "n", "x", "2"⟩,
      ⟨"c3", "p2", "u", "n", "x", "3"⟩, ⟨"c4", "p2", "u", "n", "x", "4"⟩,
      ⟨"c5", "p2", "u", "n", "x", "5"⟩]
    "p2" (some "5") 5 rfl rfl (by decide) (by decide) (by decide)
  rw [h]
  decide

/-- C4: an undecodable cursor never fails the call because of it: the
handler returns exactly what the cursorless call returns (the scan
starts from the beginning of the partition) and the response is a 200
page. -/
theorem C4_malformed_cursor_graceful (env : GetEnv) (store : List Comment) (p : String)
    (lim : Option String) (s : String)
    (h1 : env.tableSet = true) (h2 : env.storageOk = true) (hp : ¬ p = "")
    (hbad : decodeLastKey s = none) :
    getComments env store ⟨some p, lim, some s⟩ = getComments env store ⟨some p, lim, none⟩ ∧
    (getComments env store ⟨some p, lim, some s⟩).status = 200 := by
  have heq : getComments env store ⟨some p, lim, some s⟩ =
      getComments env store ⟨some p, lim, none⟩ := by
    rw [getComments_ok env store p lim (some s) h1 h2 hp,
      getComments_ok env store p lim none h1 h2 hp, Option.some_bind, hbad]
    rfl
  refine ⟨heq, ?_⟩
  rw [heq, getComments_ok env store p lim none h1 h2 hp]
  rfl

/-- C4 witness: the garbage cursor `"!!not-json"` on a one-comment
store behaves exactly like no cursor and still yields a 200 page. -/
theorem C4_malformed_cursor_graceful_witness :
    getComments ⟨true, true⟩ [⟨"a", "p", "u", "n", "x", "1"⟩]
        ⟨some "p", none, some "!!not-json"⟩ =
      getComments ⟨true, true⟩ [⟨"a", "p", "u", "n", "x", "1"⟩] ⟨some "p", none, none⟩ ∧
    (getComments ⟨true, true⟩ [⟨"a", "p", "u", "n", "x", "1"⟩]
        ⟨some "p", none, some "!!not-json"⟩).status = 200 :=
  C4_malformed_cursor_graceful ⟨true, true⟩ [⟨"a", "p", "u", "n", "x", "1"⟩] "p" none
    "!!not-json" rfl rfl (by decide) (by decide)

/-- C7 (amended): an absent, non-numeric, or zero `limit` falls back to
the default 50, and the call succeeds; but a negative numeric limit is
not defaulted — it is passed to the store query as-is. -/
theorem C7_limit_fallback_amended :
    effLimit none = 50 ∧
    (∀ s, parseIntJs s = none → effLimit (some s) = 50) ∧
    (∀ s, parseIntJs s = some 0 → effLimit (some s) = 50) ∧
    (∀ s v, parseIntJs s = some v → v ≠ 0 → effLimit (some s) = v) ∧
    (∀ (env : GetEnv) (store : List Comment) (p : String) (lim : Option String),
      env.tableSet = true → env.storageOk = true → ¬ p = "" →
      (getComments env store ⟨some p, lim, none⟩).status = 200) := by
  refine ⟨rfl, ?_, ?_, ?_, ?_⟩
  · intro s h
    simp [effLimit, h]
  · intro s h
    simp [effLimit, h]
  · intro s v h hv
    simp [effLimit, h, hv]
  · intro env store p lim h1 h2 hp
    rw [getComments_ok env store p lim none h1 h2 hp]
    rfl

/-- C7 witness: `"abc"` and `"0"` fall back to 50, `"-3"` stays `-3`,
and a call with `limit="-3"` still returns a 200 page. -/
theorem C7_limit_fallback_amended_witness :
    effLimit (some "abc") = 50 ∧ effLimit (some "0") = 50 ∧
    effLimit (some "-3") = -3 ∧
    (getComments ⟨true, true⟩ [] ⟨some "p", some "-3", none⟩).status = 200 :=
  ⟨C7_limit_fallback_amended.2.1 "abc" (by decide),
   C7_limit_fallback_amended.2.2.1 "0" (by decide),
   C7_limit_fallback_amended.2.2.2.1 "-3" (-3) (by decide) (by decide),
   C7_limit_fallback_amended.2.2.2.2 ⟨true, true⟩ [] "p" (some "-3") rfl rfl (by decide)⟩

/-- C7 counterexample: `limit="-3"` is non-positive, yet the page size
used for the store query is `-3`, not the default 50: with a comment in
the partition the call returns an empty page (a 50-sized page would
contain it). -/
theorem C7_counterexample :
    effLimit (some "-3") = -3 ∧ ¬ effLimit (some "-3") = 50 ∧
    getComments ⟨true, true⟩ [⟨"a", "p", "u", "n", "x", "1"⟩]
        ⟨some "p", some "-3", none⟩ = .ok [] none ∧
    getComments ⟨true, true⟩ [⟨"a", "p", "u", "n", "x", "1"⟩]
        ⟨some "p", some "50", none⟩ =
      .ok [⟨"a", "p", "u", "n", "x", "1"⟩] none := by
  decide

/-- Inversion for the store page: a reported `LastEvaluatedKey` is the
key of the last returned item. -/
theorem ddbQuery_lek_some (store : List Comment) (p : String) (L : Int)
    (esk : Option LastKey) (k : LastKey)
    (h : (ddbQuery store p L esk).lastEvaluatedKey = some k) :
    ∃ c, (ddbQuery store p L esk).items.getLast? = some c ∧ keyOf c = k := by
  simp only [ddbQuery] at h ⊢
  by_cases hc : L.toNat < (resumeAfter (store.filter (fun c => c.postId == p)) esk).length
  · rw [if_pos hc] at h
    exact Option.map_eq_some'.mp h
  · rw [if_neg hc] at h
    exact absurd h (by simp)

/-- Every item of a store page is a comment of the table. -/
theorem ddbQuery_items_mem (store : List Comment) (p : String) (L : Int)
    (esk : Option LastKey) (c : Comment)
    (h : c ∈ (ddbQuery store p L esk).items) : c ∈ store := by
  simp only [ddbQuery] at h
  have h1 : c ∈ resumeAfter (store.filter (fun c => c.postId == p)) esk :=
    (List.take_sublist _ _).mem h
  have h2 : c ∈ store.filter (fun c => c.postId == p) := by
    cases esk with
    | none => exact h1
    | some k => exact (((List.tail_sublist _).trans (List.dropWhile_sublist _)).mem h1)
  exact (List.mem_filter.mp h2).1

/-- C9: every cursor the reader returns round-trips exactly through one
encode/decode cycle: if a call returns a page together with a cursor,
decoding that cursor yields precisely the sort-key record of the page's
last item — the resume position the handler encoded. -/
theorem C9_cursor_roundtrip (env : GetEnv) (store : List Comment) (p : String)
    (lim : Option String) (cursor : Option String) (items : List Comment) (s : String)
    (h1 : env.tableSet = true) (h2 : env.storageOk = true) (hp : ¬ p = "")
    (hplain : ∀ c ∈ store, plainKey (keyOf c) = true)
    (hcall : getComments env store ⟨some p, lim, cursor⟩ = .ok items (some s)) :
    ∃ c, items.getLast? = some c ∧ decodeLastKey s = some (keyOf c) := by
  rw [getComments_ok env store p lim cursor h1 h2 hp] at hcall
  rw [GetResult.ok.injEq] at hcall
  obtain ⟨hitems, hlk⟩ := hcall
  obtain ⟨k, hk, hks⟩ := Option.map_eq_some'.mp hlk
  obtain ⟨c, hcl, hck⟩ := ddbQuery_lek_some store p (effLimit lim)
    (cursor.bind decodeLastKey) k hk
  refine ⟨c, by rw [← hitems]; exact hcl, ?_⟩
  have hmem : c ∈ store :=
    ddbQuery_items_mem store p (effLimit lim) (cursor.bind decodeLastKey) c
      (List.mem_of_mem_getLast? hcl)
  rw [← hks, ← hck]
  exact decodeLastKey_encodeLastKey _ (hplain c hmem)

/-- C9 witness: a two-comment partition read with `limit=1` returns a
cursor that decodes back to the first comment's key. -/
theorem C9_cursor_roundtrip_witness :
    ∃ c, [(⟨"a", "p", "u", "n", "x", "1"⟩ : Comment)].getLast? = some c ∧
      decodeLastKey (encodeLastKey ⟨"a", "p", "1"⟩) = some (keyOf c) :=
  C9_cursor_roundtrip ⟨true, true⟩
    [⟨"a", "p", "u", "n", "x", "1"⟩, ⟨"b", "p", "u", "n", "x", "2"⟩] "p" (some "1") none
    [⟨"a", "p", "u", "n", "x", "1"⟩] (encodeLastKey ⟨"a", "p", "1"⟩)
    rfl rfl (by decide) (by decide) (by decide)

/-- C10: a request with no body returns a 400 `ValidationError`
(`Missing request body`) before any field validation; a present but
unparsable JSON body makes `JSON.parse` throw and is caught as a 500
`InternalServerError`, not a `ValidationError` — and neither case
writes to the store. -/
theorem C10_body_handling : ∀ (env : CreateEnv) (store : List Comment) (u : AuthUser),
    createComment env store ⟨none, u⟩ = (.validationError "Missing request body", store) ∧
    (createComment env store ⟨none, u⟩).1.status = 400 ∧
    createComment env store ⟨some .malformed, u⟩ = (.internalError, store) ∧
    (createComment env store ⟨some .malformed, u⟩).1.status = 500 := by
  intro env store u
  exact ⟨rfl, rfl, rfl, rfl⟩

/-- C5: the `userId` recorded on a created comment is the authenticated
caller's id from `event.user`; a `userId` field inside the request
payload is never read: two requests differing only in the payload's
`userId` produce identical results, and every successfully created
record carries `event.user.id`. -/
theorem C5_ownership (env : CreateEnv) (store : List Comment) (uid uname : String)
    (postId text : Option String) (u1 u2 : Option String) :
    createComment env store ⟨some (.fields postId text u1), ⟨uid, uname⟩⟩ =
      createComment env store ⟨some (.fields postId text u2), ⟨uid, uname⟩⟩ ∧
    (∀ (c : Comment) (store2 : List Comment),
      createComment env store ⟨some (.fields postId text u1), ⟨uid, uname⟩⟩ =
        (.created c, store2) → c.userId = uid) := by
  refine ⟨rfl, ?_⟩
  intro c store2 h
  simp only [createComment] at h
  split at h
  · simp at h
  · split at h
    · simp at h
    · split at h
      · simp at h
      · split at h
        · simp at h
        · split at h
          · simp at h
          · split at h
            · simp at h
            · simp only [Prod.mk.injEq, CreateResult.created.injEq] at h
              obtain ⟨hc, _⟩ := h
              rw [← hc]

/-- C5 witness: a payload-injected `userId` `"evil"` has no effect, and
the created record's `userId` is the caller's `"me"`. -/
theorem C5_ownership_witness :
    createComment ⟨true, true, "cid", "T"⟩ []
        ⟨some (.fields (some "p") (some "hi") (some "evil")), ⟨"me", "nick"⟩⟩ =
      createComment ⟨true, true, "cid", "T"⟩ []
        ⟨some (.fields (some "p") (some "hi") (some "other")), ⟨"me", "nick"⟩⟩ ∧
    (⟨"cid", "p", "me", "nick", "hi", "T"⟩ : Comment).userId = "me" :=
  ⟨(C5_ownership ⟨true, true, "cid", "T"⟩ [] "me" "nick" (some "p") (some "hi")
      (some "evil") (some "other")).1,
   (C5_ownership ⟨true, true, "cid", "T"⟩ [] "me" "nick" (some "p") (some "hi")
      (some "evil") (some "other")).2 ⟨"cid", "p", "me", "nick", "hi", "T"⟩
      [⟨"cid", "p", "me", "nick", "hi", "T"⟩] (by decide)⟩

/-- C6: the validation checks run in the stated order with first
failure winning — missing `postId`, then missing `text`, then
whitespace-only `text`, then over-length `text` — and every validation
failure is a synchronous 400 `ValidationError` with the store left
unchanged (zero writes). -/
theorem C6_validation_order_and_no_writes :
    (∀ (env : CreateEnv) (store : List Comment) (u : AuthUser)
        (postId text payload : Option String), jsFalsy postId = true →
      createComment env store ⟨some (.fields postId text payload), u⟩ =
        (.validationError "Post ID is required", store)) ∧
    (∀ (env : CreateEnv) (store : List Comment) (u : AuthUser)
        (postId text payload : Option String),
      jsFalsy postId = false → jsFalsy text = true →
      createComment env store ⟨some (.fields postId text payload), u⟩ =
        (.validationError "Comment text is required", store)) ∧
    (∀ (env : CreateEnv) (store : List Comment) (u : AuthUser)
        (postId text payload : Option String),
      jsFalsy postId = false → jsFalsy text = false → jsTrim (text.getD "") = "" →
      createComment env store ⟨some (.fields postId text payload), u⟩ =
        (.validationError "Comment text cannot be empty or contain only whitespace", store)) ∧
    (∀ (env : CreateEnv) (store : List Comment) (u : AuthUser)
        (postId text payload : Option String),
      jsFalsy postId = false → jsFalsy text = false → ¬ jsTrim (text.getD "") = "" →
      280 < jsLength (text.getD "") →
      createComment env store ⟨some (.fields postId text payload), u⟩ =
        (.validationError "Comment text cannot exceed 280 characters", store)) ∧
    (∀ (env : CreateEnv) (store : List Comment) (ev : CreateEvent) (msg : String),
      (createComment env store ev).1 = .validationError msg →
      (createComment env store ev).2 = store ∧ (createComment env store ev).1.status = 400) := by
  refine ⟨?_, ?_, ?_, ?_, ?_⟩
  · intro env store u postId text payload h
    simp [createComment, h]
  · intro env store u postId text payload h h2
    simp [createComment, h, h2]
  · intro env store u postId text payload h h2 h3
    simp [createComment, h, h2, h3]
  · intro env store u postId text payload h h2 h3 h4
    simp [createComment, h, h2, h3, h4]
  · intro env store ev msg h
    refine ⟨?_, by rw [h]; rfl⟩
    obtain ⟨body, u⟩ := ev
    cases body with
    | none => rfl
    | some jb =>
      cases jb with
      | malformed => rfl
      | fields postId text payload =>
        simp only [createComment] at h ⊢
        repeat' split at h
        all_goals simp_all

/-- C6 witness: each validation failure at a concrete input, in order,
and the store is unchanged with status 400. -/
theorem C6_validation_order_and_no_writes_witness :
    createComment ⟨true, true, "cid", "T"⟩ [⟨"z", "p", "u", "n", "x", "1"⟩]
        ⟨some (.fields none (some "hi") none), ⟨"u", "n"⟩⟩ =
      (.validationError "Post ID is required", [⟨"z", "p", "u", "n", "x", "1"⟩]) ∧
    createComment ⟨true, true, "cid", "T"⟩ []
        ⟨some (.fields (some "p") none none), ⟨"u", "n"⟩⟩ =
      (.validationError "Comment text is required", []) ∧
    createComment ⟨true, true, "cid", "T"⟩ []
        ⟨some (.fields (some "p") (some "   ") none), ⟨"u", "n"⟩⟩ =
      (.validationError "Comment text cannot be empty or contain only whitespace", []) ∧
    (createComment ⟨true, true, "cid", "T"⟩ []
        ⟨some (.fields (some "p") (some "   ") none), ⟨"u", "n"⟩⟩).2 = [] :=
  ⟨C6_validation_order_and_no_writes.1 ⟨true, true, "cid", "T"⟩ _ _ none (some "hi") none
      (by decide),
   C6_validation_order_and_no_writes.2.1 ⟨true, true, "cid", "T"⟩ [] _ (some "p") none none
      (by decide) (by decide),
   C6_validation_order_and_no_writes.2.2.1 ⟨true, true, "cid", "T"⟩ [] _ (some "p")
      (some "   ") none (by decide) (by decide) (by decide),
   (C6_validation_order_and_no_writes.2.2.2.2 ⟨true, true, "cid", "T"⟩ []
      ⟨some (.fields (some "p") (some "   ") none), ⟨"u", "n"⟩⟩
      "Comment text cannot be empty or contain only whitespace" (by decide)).1⟩

/-- C8: on the success path the stored comment's `text` is the trimmed
input, its `id` is the freshly generated uuid and its `createdAt` the
server timestamp, the store grows by exactly that record, and the
response body is that full stored record itself; a fresh `id` keeps the
stored ids unique. -/
theorem C8_success_record (env : CreateEnv) (store : List Comment) (uid uname : String)
    (p t : String) (payload : Option String)
    (h1 : env.tableSet = true) (h2 : env.storageOk = true)
    (hp : ¬ p = "") (ht : ¬ t = "") (htr : ¬ jsTrim t = "") (hlen : jsLength t ≤ 280) :
    createComment env store ⟨some (.fields (some p) (some t) payload), ⟨uid, uname⟩⟩ =
      (.created ⟨env.freshId, p, uid, uname, jsTrim t, env.now⟩,
        store ++ [⟨env.freshId, p, uid, uname, jsTrim t, env.now⟩]) ∧
    (env.freshId ∉ store.map Comment.id → (store.map Comment.id).Nodup →
      ((store ++ [(⟨env.freshId, p, uid, uname, jsTrim t, env.now⟩ : Comment)]).map
        Comment.id).Nodup) := by
  constructor
  · have hlen2 : ¬ 280 < jsLength t := by omega
    simp [createComment, jsFalsy, hp, ht, htr, hlen2, h1, h2]
  · intro hfresh hnd
    rw [List.map_append]
    simp [List.nodup_append, hnd, hfresh]

/-- C8 witness: `"  hi  "` is stored trimmed with the generated id and
timestamp, and the response is exactly the stored record. -/
theorem C8_success_record_witness :
    createComment ⟨true, true, "cid", "2024-01-01T00:00:00.000Z"⟩ []
        ⟨some (.fields (some "p") (some "  hi  ") none), ⟨"u", "n"⟩⟩ =
      (.created ⟨"cid", "p", "u", "n", jsTrim "  hi  ", "2024-01-01T00:00:00.000Z"⟩,
        [⟨"cid", "p", "u", "n", jsTrim "  hi  ", "2024-01-01T00:00:00.000Z"⟩]) :=
  (C8_success_record ⟨true, true, "cid", "2024-01-01T00:00:00.000Z"⟩ [] "u" "n" "p"
    "  hi  " none rfl rfl (by decide) (by decide) (by decide) (by decide)).1

/-- C3 (amended): a text whose raw (pre-trim) length is exactly 280 and
which is not whitespace-only is accepted; raw length 281 is rejected; a
non-empty string of only spaces, tabs and newlines is rejected; the
empty string is rejected — each rejection a `ValidationError`. The
acceptance bound is the pre-trim length: a text whose post-trim length
is 280 but whose raw length exceeds 280 is rejected. -/
theorem C3_validation_boundary_amended :
    (∀ (env : CreateEnv) (store : List Comment) (u : AuthUser) (p t : String),
      env.tableSet = true → env.storageOk = true → ¬ p = "" → ¬ t = "" →
      ¬ jsTrim t = "" → jsLength t = 280 →
      (createComment env store ⟨some (.fields (some p) (some t) none), u⟩).1 =
        .created ⟨env.freshId, p, u.id, u.username, jsTrim t, env.now⟩) ∧
    (∀ (env : CreateEnv) (store : List Comment) (u : AuthUser) (p t : String),
      ¬ p = "" → jsLength t = 281 →
      ∃ msg, (createComment env store ⟨some (.fields (some p) (some t) none), u⟩).1 =
        .validationError msg) ∧
    (∀ (env : CreateEnv) (store : List Comment) (u : AuthUser) (p t : String),
      ¬ p = "" → ¬ t = "" → (∀ c ∈ t.data, c = ' ' ∨ c = '\t' ∨ c = '\n') →
      (createComment env store ⟨some (.fields (some p) (some t) none), u⟩).1 =
        .validationError "Comment text cannot be empty or contain only whitespace") ∧
    (∀ (env : CreateEnv) (store : List Comment) (u : AuthUser) (p : String), ¬ p = "" →
      (createComment env store ⟨some (.fields (some p) (some "") none), u⟩).1 =
        .validationError "Comment text is required") := by
  refine ⟨?_, ?_, ?_, ?_⟩
  · intro env store u p t h1 h2 hp ht htr hlen
    have hlen2 : ¬ 280 < jsLength t := by omega
    simp [createComment, jsFalsy, hp, ht, htr, hlen2, h1, h2]
  · intro env store u p t hp hlen
    have ht : ¬ t = "" := by
      intro e
      rw [e] at hlen
      simp [jsLength] at hlen
    by_cases htr : jsTrim t = ""
    · exact ⟨"Comment text cannot be empty or contain only whitespace",
        by simp [createComment, jsFalsy, hp, ht, htr]⟩
    · exact ⟨"Comment text cannot exceed 280 characters",
        by simp [createComment, jsFalsy, hp, ht, htr, hlen]⟩
  · intro env store u p t hp ht hall
    have hws : t.data.dropWhile isJsWs = [] := by
      rw [List.dropWhile_eq_nil_iff]
      intro c hc
      rcases hall c hc with h | h | h <;> simp [isJsWs, h]
    have htr : jsTrim t = "" := by
      unfold jsTrim
      rw [hws]
      rfl
    simp [createComment, jsFalsy, hp, ht, htr]
  · intro env store u p hp
    simp [createComment, jsFalsy, hp]

set_option maxRecDepth 8000 in
/-- C3 witness: 280 `a`s accepted, 281 `a`s rejected, `" \t\n"`
rejected, `""` rejected. -/
theorem C3_validation_boundary_amended_witness :
    (createComment ⟨true, true, "cid", "T"⟩ []
        ⟨some (.fields (some "p") (some (String.mk (List.replicate 280 'a'))) none),
          ⟨"u", "n"⟩⟩).1 =
      .created ⟨"cid", "p", "u", "n", jsTrim (String.mk (List.replicate 280 'a')), "T"⟩ ∧
    (∃ msg, (createComment ⟨true, true, "cid", "T"⟩ []
        ⟨some (.fields (some "p") (some (String.mk (List.replicate 281 'a'))) none),
          ⟨"u", "n"⟩⟩).1 = .validationError msg) ∧
    (createComment ⟨true, true, "cid", "T"⟩ []
        ⟨some (.fields (some "p") (some " \t\n") none), ⟨"u", "n"⟩⟩).1 =
      .validationError "Comment text cannot be empty or contain only whitespace" ∧
    (createComment ⟨true, true, "cid", "T"⟩ []
        ⟨some (.fields (some "p") (some "") none), ⟨"u", "n"⟩⟩).1 =
      .validationError "Comment text is required" :=
  ⟨C3_validation_boundary_amended.1 ⟨true, true, "cid", "T"⟩ [] ⟨"u", "n"⟩ "p" _
      rfl rfl (by decide) (by decide) (by decide) (by decide),
   C3_validation_boundary_amended.2.1 ⟨true, true, "cid", "T"⟩ [] ⟨"u", "n"⟩ "p" _
      (by decide) (by decide),
   C3_validation_boundary_amended.2.2.1 ⟨true, true, "cid", "T"⟩ [] ⟨"u", "n"⟩ "p" " \t\n"
      (by decide) (by decide) (by decide),
   C3_validation_boundary_amended.2.2.2 ⟨true, true, "cid", "T"⟩ [] ⟨"u", "n"⟩ "p"
      (by decide)⟩

set_option maxRecDepth 8000 in
/-- C3 counterexample: a space followed by 280 `a`s has post-trim length
exactly 280, yet the handler rejects it, because the length check runs
on the raw text. -/
theorem C3_counterexample :
    (jsTrim (String.mk (' ' :: List.replicate 280 'a'))).length = 280 ∧
    (createComment ⟨true, true, "cid", "T"⟩ []
        ⟨some (.fields (some "p") (some (String.mk (' ' :: List.replicate 280 'a'))) none),
          ⟨"u", "n"⟩⟩).1 =
      .validationError "Comment text cannot exceed 280 characters" := by
  decide

end MicroBlog
